import Mathlib

/-!
Verification of the consensus-engine abstraction (package `consensus`,
file `consensus.go`).

The Go source consists of the `SystemAddress` constant, the
`ChainHeaderReader` / `ChainReader` capability interfaces, and the
`Engine` / `PoW` / `PoSA` interface contracts.  The constant and the
capability structure are embedded directly from the source.  The
behaviour of the engine operations (batch verification, preparation,
finalization, sealing, difficulty) is specified only by the interface
contract; those operations are modelled from the specification, as
flagged in their doc comments.
-/

namespace Consensus

/-! ## Addresses and hex parsing

`common.Address` is a fixed 20-byte identifier.  We embed an address as
a list of byte values.  `hexToAddress` follows Go's
`common.HexToAddress`: strip an optional `0x` prefix, decode the hex
digits into bytes (left-padding with a zero digit when the digit count
is odd), and keep the last 20 bytes, left-padded with zero bytes. -/

abbrev Address : Type := List Nat

/-- Value of one hex digit character, `none` when not a hex digit. -/
def hexDigitVal (c : Char) : Option Nat :=
  if '0' ≤ c ∧ c ≤ '9' then some (c.toNat - '0'.toNat)
  else if 'a' ≤ c ∧ c ≤ 'f' then some (c.toNat - 'a'.toNat + 10)
  else if 'A' ≤ c ∧ c ≤ 'F' then some (c.toNat - 'A'.toNat + 10)
  else none

/-- Decode an even-length list of hex digit characters into bytes. -/
def hexPairsToBytes : List Char → Option (List Nat)
  | [] => some []
  | [_] => none
  | c1 :: c2 :: rest =>
    match hexDigitVal c1, hexDigitVal c2, hexPairsToBytes rest with
    | some h, some l, some bs => some ((16 * h + l) :: bs)
    | _, _, _ => none

/-- Strip a leading `0x` / `0X` from a hex string's characters. -/
def strip0xMark (cs : List Char) : List Char :=
  match cs with
  | '0' :: 'x' :: rest => rest
  | '0' :: 'X' :: rest => rest
  | other => other

/-- Go's `common.FromHex`: strip the `0x` mark, left-pad odd digit
counts with one `0` digit, then decode. -/
def fromHex (s : String) : Option (List Nat) :=
  let ds := strip0xMark s.data
  if ds.length % 2 = 1 then hexPairsToBytes ('0' :: ds) else hexPairsToBytes ds

/-- Go's `common.HexToAddress`: decode, keep the last 20 bytes,
left-pad with zero bytes to exactly 20. -/
def hexToAddress (s : String) : Address :=
  let bs := (fromHex s).getD []
  let bs := if bs.length ≤ 20 then bs else bs.drop (bs.length - 20)
  List.replicate (20 - bs.length) 0 ++ bs

/-- The source declaration
`var SystemAddress = common.HexToAddress("0xffffFFFfFFffffffffffffffFfFFFfffFFFfFFfE")`. -/
def SystemAddress : Address :=
  hexToAddress ("0xffffFFFfFFffffffffffffffFfFFFfffFFFfFFfE")

/-- The byte pattern the claim describes: all bytes are `0xff` except a
single byte equal to zero. -/
def allFWithOneZeroByte (a : Address) : Prop :=
  ∃ i : Fin a.length, a.get i = 0 ∧ ∀ j : Fin a.length, j ≠ i → a.get j = 0xff

instance (a : Address) : Decidable (allFWithOneZeroByte a) := by
  unfold allFWithOneZeroByte
  infer_instance

/-- Number of zero bits among the 8 bits of a byte. -/
def zeroBitsInByte (b : Nat) : Nat :=
  (List.range 8).countP (fun k => b / 2 ^ k % 2 = 0)

/-! ## Data model

Modelled from the spec (§3): the engine reads and mutates these
entities but never owns storage.  A `Header` carries the parent
reference, number, timestamp, difficulty, coinbase address, the
consensus-specific extra data, and the seal/signature field; everything
except the seal field is a pre-seal field. -/

structure ChainConfig where
  chainId : Nat
  period : Nat
  blockReward : Int
  systemTxGas : Nat
  deriving DecidableEq

structure Header where
  parentHash : Nat
  number : Nat
  time : Nat
  difficulty : Int
  coinbase : Address
  gasLimit : Nat
  extra : List Nat
  sealData : List Nat
  deriving DecidableEq

structure Tx where
  sender : Address
  toAddr : Option Address
  value : Int
  gas : Nat
  deriving DecidableEq

structure Receipt where
  txGas : Nat
  ok : Bool
  deriving DecidableEq

structure Block where
  header : Header
  txs : List Tx
  uncles : List Header
  deriving DecidableEq

/-- Mutable account state, modelled as an association list from
addresses to balances (`StateDB` in the source imports). -/
structure StateDB where
  accounts : List (Address × Int)
  deriving DecidableEq

def StateDB.getBalance (st : StateDB) (a : Address) : Int :=
  (st.accounts.lookup a).getD 0

def StateDB.addBalance (st : StateDB) (a : Address) (v : Int) : StateDB :=
  { accounts := (a, st.getBalance a + v) :: st.accounts }

/-! ## Chain query capabilities

Embedded from the source interfaces `ChainHeaderReader` (header-only
access) and `ChainReader` (adds `GetBlock`, i.e. block-body access). -/

structure ChainHeaderReader where
  config : ChainConfig
  currentHeader : Header
  getHeader : Nat → Nat → Option Header
  getHeaderByNumber : Nat → Option Header
  getHeaderByHash : Nat → Option Header
  getHighestVerifiedHeader : Header

structure ChainReader extends ChainHeaderReader where
  getBlock : Nat → Nat → Option Block

/-! ## Difficulty policy

Modelled from the spec (§4.5): `CalcDifficulty` is a pure function of
the parent header, the target timestamp, and the chain configuration.
The engine instance carries only algorithm configuration and
background-thread bookkeeping; the difficulty computation reads none of
it. -/

def calcDifficultyCore (cfg : ChainConfig) (time : Nat) (parent : Header) : Int :=
  max 1 (parent.difficulty + (if time ≤ parent.time + cfg.period then 1 else -1))

/-- Engine-instance internal state (thread-pool and search bookkeeping),
modelled from the spec (§3: the instance holds only algorithm
configuration and background-thread handles). -/
structure EngineInstance where
  threads : Nat
  searchCount : Nat
  closed : Bool
  deriving DecidableEq

/-- Internal engine-state transitions that may happen between two calls
on one instance (background search activity, tuning, shutdown). -/
inductive EngineEvent where
  | startSearch
  | finishSearch
  | tuneThreads (n : Nat)
  | close
  deriving DecidableEq

def engineStep (e : EngineInstance) (ev : EngineEvent) : EngineInstance :=
  match ev with
  | .startSearch => { e with searchCount := e.searchCount + 1 }
  | .finishSearch => { e with searchCount := e.searchCount - 1 }
  | .tuneThreads n => { e with threads := n }
  | .close => { e with closed := true }

/-- Modelled from the spec: `CalcDifficulty(chain, time, parent)` as a
method of an engine instance.  It consults only the chain
configuration, the target timestamp and the parent header. -/
def CalcDifficulty (_e : EngineInstance) (chain : ChainHeaderReader)
    (time : Nat) (parent : Header) : Int :=
  calcDifficultyCore chain.config time parent

/-! ## Header verification

Modelled from the spec (§4.1): a single header is checked for parent
availability, timestamp monotonicity, difficulty correctness and
(optionally) seal validity, with the error taxonomy of §7. -/

inductive VerifyError where
  | unknownAncestor
  | invalidTimestamp
  | invalidDifficulty
  | invalidSeal
  deriving DecidableEq

/-- Modelled from the spec: a seal/signature field is structurally
valid when it has the 65-byte signature length. -/
def sealValid (h : Header) : Bool :=
  h.sealData.length == 65

/-- Modelled from the spec: `VerifyHeader(chain, header, seal)`.
`none` means the header passed verification. -/
def VerifyHeader (chain : ChainHeaderReader) (h : Header) (sealReq : Bool) :
    Option VerifyError :=
  match chain.getHeader h.parentHash (h.number - 1) with
  | none => some .unknownAncestor
  | some parent =>
    if h.time ≤ parent.time then some .invalidTimestamp
    else if h.difficulty ≠ calcDifficultyCore chain.config h.time parent then
      some .invalidDifficulty
    else if sealReq && !sealValid h then some .invalidSeal
    else none

/-! ## Batch verification

Modelled from the spec (§4.1, §5): `VerifyHeaders` distributes the
headers over concurrent workers, each worker verifies one header, and
a reorder buffer delivers the results on the results channel in input
order regardless of the order in which workers complete.  The
completion order is modelled as an explicit schedule: a list of the
indices in the order in which the workers finish. -/

/-- Default header used for out-of-range worker indices (never reached
on well-formed schedules). -/
def defaultHeader : Header :=
  { parentHash := 0, number := 0, time := 0, difficulty := 0,
    coinbase := [], gasLimit := 0, extra := [], sealData := [] }

/-- The stream of per-worker completions: each entry pairs the input
position with the verification result computed for that position. -/
def workerCompletions (chain : ChainHeaderReader) (headers : List Header)
    (seals : List Bool) (order : List Nat) : List (Nat × Option VerifyError) :=
  order.map (fun i =>
    (i, VerifyHeader chain (headers.getD i defaultHeader) (seals.getD i false)))

/-- The reorder buffer: results are released on the results channel in
input order, each position waiting for its own worker's completion. -/
def reorderBuffer (n : Nat) (completions : List (Nat × Option VerifyError)) :
    List (Option VerifyError) :=
  (List.range n).filterMap
    (fun i => (completions.find? (fun p => p.1 == i)).map Prod.snd)

/-- Modelled from the spec: `VerifyHeaders(chain, headers, seals)` with
an explicit worker-completion schedule.  A length mismatch between
`headers` and `seals` fails fast synchronously (`none`); otherwise the
ordered stream of delivered results is returned. -/
def VerifyHeaders (chain : ChainHeaderReader) (headers : List Header)
    (seals : List Bool) (order : List Nat) :
    Option (List (Option VerifyError)) :=
  if headers.length = seals.length then
    some (reorderBuffer headers.length (workerCompletions chain headers seals order))
  else none

/-! ## Cancellation of batch verification

Modelled from the spec (§5): the cancel-signal is cooperative.  The
verifier state tracks the workers still running, the results buffered
or already delivered, and whether a send on the cancel channel has been
observed.  Events are interleaved by an arbitrary scheduler: a worker
can complete its unit of work, the next in-order result can be sent on
the results channel, the cancel signal can be observed, and after
cancellation each remaining worker observes the quit channel and
exits.  After cancellation no send ever happens and every scheduled
worker exits. -/

structure VerifierState where
  /-- Indices of worker tasks that are still alive (hold resources). -/
  running : List Nat
  /-- Results computed but not yet sent, keyed by input position. -/
  buffered : List (Nat × Option VerifyError)
  /-- Number of results already sent on the results channel (results
  are sent in input order, so this is also the next position due). -/
  sent : Nat
  /-- Whether a send on the cancel-signal channel has been observed. -/
  cancelObserved : Bool
  deriving DecidableEq

/-- Scheduler events for the batch verifier. -/
inductive VEvent where
  /-- Worker `i` is scheduled: before cancellation it completes its
  verification and buffers the result; after cancellation it observes
  the quit channel and exits without producing anything. -/
  | schedule (i : Nat)
  /-- The in-order delivery task tries to send the next due result. -/
  | deliver
  /-- A send on the cancel-signal channel is observed. -/
  | cancel
  deriving DecidableEq

/-- One scheduler step.  Returns the successor state and the result
sent on the results channel during this step, if any. -/
def vStep (chain : ChainHeaderReader) (headers : List Header)
    (seals : List Bool) (s : VerifierState) (e : VEvent) :
    VerifierState × Option (Option VerifyError) :=
  match e with
  | .schedule i =>
    if s.cancelObserved then
      ({ s with running := s.running.erase i }, none)
    else if i ∈ s.running then
      ({ s with
          running := s.running.erase i,
          buffered := (i, VerifyHeader chain (headers.getD i defaultHeader)
            (seals.getD i false)) :: s.buffered }, none)
    else (s, none)
  | .deliver =>
    if s.cancelObserved then (s, none)
    else
      match s.buffered.find? (fun p => p.1 == s.sent) with
      | some (_, r) => ({ s with sent := s.sent + 1 }, some r)
      | none => (s, none)
  | .cancel => ({ s with cancelObserved := true }, none)

/-- Run the verifier under a schedule, collecting every result sent on
the results channel. -/
def vRun (chain : ChainHeaderReader) (headers : List Header)
    (seals : List Bool) (s : VerifierState) :
    List VEvent → VerifierState × List (Option VerifyError)
  | [] => (s, [])
  | e :: es =>
    let (s', out) := vStep chain headers seals s e
    let (s'', outs) := vRun chain headers seals s' es
    (s'', out.toList ++ outs)

/-- The verifier state right after `VerifyHeaders` has spawned one
worker per header: all `n` workers run, nothing is buffered or sent,
and no cancel signal has been observed. -/
def vInit (n : Nat) : VerifierState :=
  { running := List.range n, buffered := [], sent := 0, cancelObserved := false }

/-! ## Block preparation

Modelled from the spec (§4.2): `Prepare` mutates the header in place,
setting the consensus-owned fields (difficulty and authority-rotation
markers) from the parent header and the chain configuration; it fails
with `UnknownAncestor` when the parent lookup fails.  It receives no
transaction content. -/

/-- Modelled from the spec: the authority-rotation marker written into
the extra field, a function of the configuration and parent only. -/
def authorityMarker (cfg : ChainConfig) (parent : Header) : List Nat :=
  [cfg.chainId % 256, parent.number % 256]

def Prepare (chain : ChainHeaderReader) (h : Header) : Except VerifyError Header :=
  match chain.getHeader h.parentHash (h.number - 1) with
  | none => .error .unknownAncestor
  | some parent =>
    .ok { h with
      difficulty := calcDifficultyCore chain.config h.time parent,
      extra := authorityMarker chain.config parent }

/-! ## Seal hash

Modelled from the spec (§4.4): `SealHash` is a deterministic hash of
the header's pre-seal fields, collision-free across equivalent headers.
The hash is an injective pairing of the pre-seal fields; the
seal/signature field does not enter it. -/

/-- Injective code of an integer as a natural number. -/
def intCode : Int → Nat
  | .ofNat n => 2 * n
  | .negSucc n => 2 * n + 1

/-- Injective code of a byte list as a natural number. -/
def encodeList : List Nat → Nat
  | [] => 0
  | a :: l => Nat.pair a (encodeList l) + 1

/-- The pre-seal fields of a header: everything except `sealData`. -/
def preSealFields (h : Header) :
    Nat × Nat × Nat × Int × Address × Nat × List Nat :=
  (h.parentHash, h.number, h.time, h.difficulty, h.coinbase, h.gasLimit, h.extra)

/-- Injective pairing of a pre-seal field tuple into a hash value. -/
def hashFields (t : Nat × Nat × Nat × Int × Address × Nat × List Nat) : Nat :=
  Nat.pair t.1 (Nat.pair t.2.1 (Nat.pair t.2.2.1
    (Nat.pair (intCode t.2.2.2.1) (Nat.pair (encodeList t.2.2.2.2.1)
      (Nat.pair t.2.2.2.2.2.1 (encodeList t.2.2.2.2.2.2))))))

def SealHash (h : Header) : Nat :=
  hashFields (preSealFields h)

/-! ## Finalization

Modelled from the spec (§4.3, §8): the two finalization operations
share one semantic core — "apply consensus-driven state effects" — and
differ only in output.  The modelled effects pay the block reward from
the system pseudo-account to the coinbase and inject one system
transaction with its receipt; a reverting system-level call is fatal
for the block. -/

inductive FinalizeError where
  | stateTransition
  deriving DecidableEq

/-- Modelled from the spec: the fixed system contract targeted by the
injected system transaction. -/
def systemContract : Address := List.replicate 19 0 ++ [0x10]

/-- Modelled from the spec: the shared semantic core of finalization.
Returns the mutated state, the injected system transaction, its
receipt, and the gas it consumed; fails when the system-level call
reverts. -/
def applyConsensusStateEffects (cfg : ChainConfig) (h : Header) (st : StateDB) :
    Except FinalizeError (StateDB × Tx × Receipt × Nat) :=
  if h.gasLimit < cfg.systemTxGas then .error .stateTransition
  else
    let st' := (st.addBalance h.coinbase cfg.blockReward).addBalance
      SystemAddress (-cfg.blockReward)
    let tx : Tx := { sender := SystemAddress, toAddr := some systemContract,
                     value := cfg.blockReward, gas := cfg.systemTxGas }
    .ok (st', tx, { txGas := cfg.systemTxGas, ok := true }, cfg.systemTxGas)

/-- Modelled from the spec: `Finalize` applies the state effects and
appends to the mutable-by-reference sequences (`txs`, `receipts`,
`systemTxs`, `usedGas` become in/out values); it produces no block. -/
def Finalize (chain : ChainHeaderReader) (h : Header) (st : StateDB)
    (txs : List Tx) (_uncles : List Header) (receipts : List Receipt)
    (systemTxs : List Tx) (usedGas : Nat) :
    Except FinalizeError (StateDB × List Tx × List Receipt × List Tx × Nat) :=
  match applyConsensusStateEffects chain.config h st with
  | .error e => .error e
  | .ok (st', tx, rcpt, gas) =>
    .ok (st', txs ++ [tx], receipts ++ [rcpt], systemTxs ++ [tx], usedGas + gas)

/-- Modelled from the spec: `FinalizeAndAssemble` performs the same
state effects and additionally assembles and returns the finished
block with its receipts.  Written out independently of `Finalize`, as
the local block producer's path. -/
def FinalizeAndAssemble (chain : ChainHeaderReader) (h : Header) (st : StateDB)
    (txs : List Tx) (uncles : List Header) (receipts : List Receipt) :
    Except FinalizeError (Block × List Receipt × StateDB) :=
  if chain.config.systemTxGas ≤ h.gasLimit then
    let sysTx : Tx := { sender := SystemAddress, toAddr := some systemContract,
                        value := chain.config.blockReward,
                        gas := chain.config.systemTxGas }
    let st' := (st.addBalance h.coinbase chain.config.blockReward).addBalance
      SystemAddress (-chain.config.blockReward)
    .ok ({ header := h, txs := txs ++ [sysTx], uncles := uncles },
         receipts ++ [{ txGas := chain.config.systemTxGas, ok := true }], st')
  else .error .stateTransition

/-! ## Sealing

Modelled from the spec (§4.4, §7): `Seal` fails synchronously only for
precondition violations (not authorized to seal); the background
search's eventual output on the results channel is its outcome, and a
mid-search failure surfaces as no result, never as an error. -/

inductive SealError where
  | unauthorized
  deriving DecidableEq

/-- Outcome of the background proof search. -/
inductive SearchOutcome where
  | found (proof : List Nat)
  | failed
  deriving DecidableEq

/-- Attach a found proof as the seal of the block's header. -/
def sealWith (b : Block) (proof : List Nat) : Block :=
  { b with header := { b.header with sealData := proof } }

/-- The background search: pushes the fully-sealed block when the
search succeeds, and nothing when it fails mid-search. -/
def runSearch (b : Block) (o : SearchOutcome) : Option Block :=
  match o with
  | .found p => some (sealWith b p)
  | .failed => none

/-- Modelled from the spec: `Seal` with an explicit authorization
precondition and an explicit background-search outcome. -/
def Seal (authorized : Bool) (b : Block) (o : SearchOutcome) :
    Except SealError (Option Block) :=
  if authorized then .ok (runSearch b o) else .error .unauthorized

/-! ## The engine contract

Embedded from the source interface `Engine` (and its `PoW` / `PoSA`
extensions): each operation's chain-access capability is exactly the
one in its Go signature.  Header-phase operations receive only
`ChainHeaderReader`; `VerifyUncles` and `Delay` receive the full
`ChainReader`, as do the PoSA checks `EnoughDistance` and
`AllowLightProcess`. -/

structure Engine where
  author : Header → Except VerifyError Address
  verifyHeader : ChainHeaderReader → Header → Bool → Option VerifyError
  verifyHeaders : ChainHeaderReader → List Header → List Bool → List Nat →
    Option (List (Option VerifyError))
  verifyUncles : ChainReader → Block → Option VerifyError
  prepare : ChainHeaderReader → Header → Except VerifyError Header
  finalize : ChainHeaderReader → Header → StateDB → List Tx → List Header →
    List Receipt → List Tx → Nat →
    Except FinalizeError (StateDB × List Tx × List Receipt × List Tx × Nat)
  finalizeAndAssemble : ChainHeaderReader → Header → StateDB → List Tx →
    List Header → List Receipt →
    Except FinalizeError (Block × List Receipt × StateDB)
  sealOp : ChainHeaderReader → Block → SearchOutcome →
    Except SealError (Option Block)
  sealHash : Header → Nat
  calcDifficulty : ChainHeaderReader → Nat → Header → Int
  apis : ChainHeaderReader → List Nat
  delay : ChainReader → Header → Option Nat
  close : Unit → Option Unit

/-- The `PoW` extension: adds hashrate reporting (the float is
abstracted to a rational). -/
structure PoW extends Engine where
  hashrate : Unit → ℚ

/-- The `PoSA` extension (source lines 140–148). -/
structure PoSA extends Engine where
  isSystemTransaction : Tx → Header → Except VerifyError Bool
  isSystemContract : Option Address → Bool
  enoughDistance : ChainReader → Header → Bool
  isLocalBlock : Header → Bool
  allowLightProcess : ChainReader → Header → Bool

/-! ## A reference engine and concrete fixtures

A minimal engine instance exercising the contract, built from the
modelled operations, together with concrete chain fixtures used to
evaluate the contract on closed inputs. -/

def refAuthor (h : Header) : Except VerifyError Address :=
  if sealValid h then .ok h.coinbase else .error .invalidSeal

def refVerifyUncles (c : ChainReader) (b : Block) : Option VerifyError :=
  b.uncles.findSome? (fun u => VerifyHeader c.toChainHeaderReader u false)

def sealerAuthorized (chain : ChainHeaderReader) (b : Block) : Bool :=
  b.header.number == chain.currentHeader.number + 1

def refEngine : Engine :=
  { author := refAuthor
    verifyHeader := VerifyHeader
    verifyHeaders := VerifyHeaders
    verifyUncles := refVerifyUncles
    prepare := Prepare
    finalize := Finalize
    finalizeAndAssemble := FinalizeAndAssemble
    sealOp := fun chain b o => Seal (sealerAuthorized chain b) b o
    sealHash := SealHash
    calcDifficulty := fun chain t p => calcDifficultyCore chain.config t p
    apis := fun _ => [0]
    delay := fun c _ => some c.config.period
    close := fun _ => some () }

def cConfig : ChainConfig :=
  { chainId := 56, period := 3, blockReward := 2, systemTxGas := 10 }

def cGenesis : Header :=
  { parentHash := 0, number := 0, time := 100, difficulty := 1,
    coinbase := List.replicate 20 1, gasLimit := 1000, extra := [],
    sealData := List.replicate 65 0 }

/-- A concrete header reader holding only the genesis header under
hash `1`. -/
def cHeaderReader : ChainHeaderReader :=
  { config := cConfig
    currentHeader := cGenesis
    getHeader := fun hsh num => if hsh == 1 && num == 0 then some cGenesis else none
    getHeaderByNumber := fun n => if n == 0 then some cGenesis else none
    getHeaderByHash := fun hsh => if hsh == 1 then some cGenesis else none
    getHighestVerifiedHeader := cGenesis }

/-- A valid child of the genesis with the given timestamp. -/
def cChild (t : Nat) : Header :=
  { parentHash := 1, number := 1, time := t,
    difficulty := calcDifficultyCore cConfig t cGenesis,
    coinbase := List.replicate 20 2, gasLimit := 1000, extra := [],
    sealData := List.replicate 65 0 }

/-- A child of the genesis whose timestamp is not after its parent's
(an invalid timestamp). -/
def cBadChild : Header :=
  { cChild 101 with time := 100, difficulty := calcDifficultyCore cConfig 100 cGenesis }

def cBlock : Block := { header := cChild 103, txs := [], uncles := [] }

/-- Two full chain readers agreeing on all header access but differing
in block-body access. -/
def cReader1 : ChainReader :=
  { toChainHeaderReader := cHeaderReader, getBlock := fun _ _ => none }

def cReader2 : ChainReader :=
  { toChainHeaderReader := cHeaderReader, getBlock := fun _ _ => some cBlock }

/-- A header reader with the same configuration as `cHeaderReader` but
an entirely different view of the chain (an independent node). -/
def cHeaderReader2 : ChainHeaderReader :=
  { config := cConfig
    currentHeader := cChild 103
    getHeader := fun _ _ => none
    getHeaderByNumber := fun _ => none
    getHeaderByHash := fun _ => none
    getHighestVerifiedHeader := cChild 103 }

def cEngine1 : EngineInstance := { threads := 1, searchCount := 0, closed := false }

def cEngine2 : EngineInstance := { threads := 8, searchCount := 3, closed := true }

/-- A header as the miner hands it to `Prepare`: consensus fields not
yet initialized. -/
def cPrep0 : Header := { cChild 103 with difficulty := 0, extra := [7] }

/-- The header `Prepare` produces from `cPrep0`. -/
def cPrep1 : Header :=
  { cPrep0 with
    difficulty := calcDifficultyCore cConfig 103 cGenesis,
    extra := authorityMarker cConfig cGenesis }

/-- Expected outputs of finalization on an empty state and empty
transaction list under `cConfig`. -/
def cFinState : StateDB :=
  ((⟨[]⟩ : StateDB).addBalance (cChild 103).coinbase cConfig.blockReward).addBalance
    SystemAddress (-cConfig.blockReward)

def cSysTx : Tx :=
  { sender := SystemAddress, toAddr := some systemContract,
    value := cConfig.blockReward, gas := cConfig.systemTxGas }

def cSysReceipt : Receipt := { txGas := cConfig.systemTxGas, ok := true }

def cAssembledBlock : Block := { header := cChild 103, txs := [cSysTx], uncles := [] }

/-! ## Helper lemmas -/

theorem filterMap_eq_map_of_some {α β : Type} (l : List α) (f : α → Option β)
    (g : α → β) (h : ∀ x ∈ l, f x = some (g x)) : l.filterMap f = l.map g := by
  induction l with
  | nil => rfl
  | cons a t ih =>
    simp only [List.filterMap_cons, List.map_cons, h a (List.mem_cons_self a t)]
    rw [ih (fun x hx => h x (List.mem_cons_of_mem a hx))]

theorem find_workerCompletions (chain : ChainHeaderReader) (headers : List Header)
    (seals : List Bool) (order : List Nat) (i : Nat) (hmem : i ∈ order) :
    (workerCompletions chain headers seals order).find? (fun p => p.1 == i) =
      some (i, VerifyHeader chain (headers.getD i defaultHeader)
        (seals.getD i false)) := by
  induction order with
  | nil => cases hmem
  | cons j rest ih =>
    by_cases hji : j = i
    · subst hji
      simp [workerCompletions, List.find?_cons_of_pos]
    · have : i ∈ rest := by
        cases hmem with
        | head => exact absurd rfl hji
        | tail _ h => exact h
      simpa [workerCompletions, List.find?_cons_of_neg, hji] using ih this

theorem range_map_getD_eq_zipWith {α β γ : Type} (f : α → β → γ) (da : α)
    (db : β) :
    ∀ (l1 : List α) (l2 : List β), l1.length = l2.length →
      (List.range l1.length).map (fun i => f (l1.getD i da) (l2.getD i db)) =
        List.zipWith f l1 l2 := by
  intro l1
  induction l1 with
  | nil =>
    intro l2 hlen
    cases l2 with
    | nil => rfl
    | cons b t => cases hlen
  | cons a t ih =>
    intro l2 hlen
    cases l2 with
    | nil => cases hlen
    | cons b t2 =>
      have hlen' : t.length = t2.length := by simpa using hlen
      simp only [List.length_cons, List.range_succ_eq_map, List.map_cons,
        List.map_map, List.zipWith_cons_cons]
      refine congrArg₂ (· :: ·) rfl ?_
      rw [← ih t2 hlen']
      rfl

theorem verifyHeaders_eq_zipWith (chain : ChainHeaderReader)
    (headers : List Header) (seals : List Bool) (order : List Nat)
    (hlen : headers.length = seals.length)
    (hperm : order.Perm (List.range headers.length)) :
    VerifyHeaders chain headers seals order =
      some (List.zipWith (fun h s => VerifyHeader chain h s) headers seals) := by
  unfold VerifyHeaders
  rw [if_pos hlen]
  refine congrArg some ?_
  unfold reorderBuffer
  rw [filterMap_eq_map_of_some _ _
    (fun i => VerifyHeader chain (headers.getD i defaultHeader) (seals.getD i false)) ?_]
  · exact range_map_getD_eq_zipWith _ _ _ headers seals hlen
  · intro i hi
    rw [find_workerCompletions chain headers seals order i (hperm.mem_iff.mpr hi)]
    rfl

theorem verify_zip_getD (chain : ChainHeaderReader) (headers : List Header)
    (seals : List Bool) (hlen : headers.length = seals.length) (i : Nat)
    (hi : i < headers.length) (d : Option VerifyError) :
    (List.zipWith (fun h s => VerifyHeader chain h s) headers seals).getD i d =
      VerifyHeader chain (headers.getD i defaultHeader) (seals.getD i false) := by
  have hi2 : i < seals.length := hlen ▸ hi
  have hz : i < (List.zipWith (fun h s => VerifyHeader chain h s) headers seals).length := by
    rw [List.length_zipWith, hlen, min_self]
    exact hi2
  rw [List.getD_eq_getElem _ _ hz, List.getD_eq_getElem _ _ hi,
    List.getD_eq_getElem _ _ hi2]
  exact List.getElem_zipWith

/-! ## C1: ordered batch results -/

/-- C1: for every batch of `N` headers submitted to `VerifyHeaders`
with `len(seals) = len(headers) = N`, the results channel yields
exactly `N` results, one per header, in the same order as the input
sequence, regardless of the order in which the concurrent workers
complete (any completion schedule that is a permutation of the worker
indices). -/
theorem verifyHeaders_ordered_results (chain : ChainHeaderReader)
    (headers : List Header) (seals : List Bool) (order : List Nat)
    (hlen : headers.length = seals.length)
    (hperm : order.Perm (List.range headers.length)) :
    ∃ rs, VerifyHeaders chain headers seals order = some rs ∧
      rs.length = headers.length ∧
      ∀ i < headers.length,
        rs.getD i (some .unknownAncestor) =
          VerifyHeader chain (headers.getD i defaultHeader) (seals.getD i false) := by
  refine ⟨_, verifyHeaders_eq_zipWith chain headers seals order hlen hperm, ?_, ?_⟩
  · rw [List.length_zipWith, hlen, min_self]
  · intro i hi
    exact verify_zip_getD chain headers seals hlen i hi _

/-- C1 witness: a concrete 3-header batch with a shuffled completion
schedule. -/
theorem verifyHeaders_ordered_results_witness :
    ∃ rs, VerifyHeaders cHeaderReader [cChild 101, cChild 102, cChild 105]
        [true, true, true] [2, 0, 1] = some rs ∧
      rs.length = ([cChild 101, cChild 102, cChild 105] : List Header).length ∧
      ∀ i < ([cChild 101, cChild 102, cChild 105] : List Header).length,
        rs.getD i (some .unknownAncestor) =
          VerifyHeader cHeaderReader
            (([cChild 101, cChild 102, cChild 105] : List Header).getD i defaultHeader)
            (([true, true, true] : List Bool).getD i false) :=
  verifyHeaders_ordered_results cHeaderReader
    [cChild 101, cChild 102, cChild 105] [true, true, true] [2, 0, 1]
    (by decide) (by decide)

/-! ## C2: a bad header only fails at its own position -/

/-- C2: for every batch in which exactly one header is invalid (the
one at position `k`), the ordered results report the error only at
position `k`; every other position still reports success.  A bad
header never aborts sibling verifications or the whole batch. -/
theorem verifyHeaders_isolates_bad_header (chain : ChainHeaderReader)
    (headers : List Header) (seals : List Bool) (order : List Nat)
    (hlen : headers.length = seals.length)
    (hperm : order.Perm (List.range headers.length))
    (k : Nat) (hk : k < headers.length) (err : VerifyError)
    (hbad : VerifyHeader chain (headers.getD k defaultHeader)
      (seals.getD k false) = some err)
    (hgood : ∀ i < headers.length, i ≠ k →
      VerifyHeader chain (headers.getD i defaultHeader) (seals.getD i false) = none) :
    ∃ rs, VerifyHeaders chain headers seals order = some rs ∧
      rs.length = headers.length ∧
      rs.getD k none = some err ∧
      ∀ i < headers.length, i ≠ k → rs.getD i (some err) = none := by
  refine ⟨_, verifyHeaders_eq_zipWith chain headers seals order hlen hperm, ?_, ?_, ?_⟩
  · rw [List.length_zipWith, hlen, min_self]
  · rw [verify_zip_getD chain headers seals hlen k hk _]
    exact hbad
  · intro i hi hik
    rw [verify_zip_getD chain headers seals hlen i hi _]
    exact hgood i hi hik

/-- C2 witness: five headers where the one at position 2 (the third)
has an invalid timestamp, under a shuffled completion schedule. -/
theorem verifyHeaders_isolates_bad_header_witness :
    ∃ rs, VerifyHeaders cHeaderReader
        [cChild 101, cChild 102, cBadChild, cChild 104, cChild 105]
        [true, true, true, true, true] [4, 2, 0, 3, 1] = some rs ∧
      rs.length =
        ([cChild 101, cChild 102, cBadChild, cChild 104, cChild 105] : List Header).length ∧
      rs.getD 2 none = some .invalidTimestamp ∧
      ∀ i < ([cChild 101, cChild 102, cBadChild, cChild 104, cChild 105] : List Header).length,
        i ≠ 2 → rs.getD i (some .invalidTimestamp) = none :=
  verifyHeaders_isolates_bad_header cHeaderReader
    [cChild 101, cChild 102, cBadChild, cChild 104, cChild 105]
    [true, true, true, true, true] [4, 2, 0, 3, 1]
    (by decide) (by decide) 2 (by decide) .invalidTimestamp
    (by decide) (by decide)

/-! ## C3: cancellation lemmas -/

theorem vRun_cons (chain : ChainHeaderReader) (headers : List Header)
    (seals : List Bool) (s : VerifierState) (e : VEvent) (es : List VEvent) :
    vRun chain headers seals s (e :: es) =
      ((vRun chain headers seals (vStep chain headers seals s e).1 es).1,
       (vStep chain headers seals s e).2.toList ++
         (vRun chain headers seals (vStep chain headers seals s e).1 es).2) := rfl

theorem vRun_append (chain : ChainHeaderReader) (headers : List Header)
    (seals : List Bool) :
    ∀ (es1 es2 : List VEvent) (s : VerifierState),
      vRun chain headers seals s (es1 ++ es2) =
        ((vRun chain headers seals (vRun chain headers seals s es1).1 es2).1,
         (vRun chain headers seals s es1).2 ++
           (vRun chain headers seals (vRun chain headers seals s es1).1 es2).2) := by
  intro es1
  induction es1 with
  | nil => intro es2 s; rfl
  | cons e es ih =>
    intro es2 s
    rw [List.cons_append, vRun_cons, vRun_cons, ih]
    simp [List.append_assoc]

theorem vStep_cancelled (chain : ChainHeaderReader) (headers : List Header)
    (seals : List Bool) (s : VerifierState) (e : VEvent)
    (hc : s.cancelObserved = true) :
    (vStep chain headers seals s e).2 = none ∧
    (vStep chain headers seals s e).1.cancelObserved = true ∧
    ∀ i ∈ (vStep chain headers seals s e).1.running, i ∈ s.running := by
  cases e with
  | schedule i =>
    refine ⟨by simp [vStep, hc], by simp [vStep, hc], ?_⟩
    intro a ha
    simp only [vStep, hc, if_pos] at ha
    exact List.mem_of_mem_erase ha
  | deliver => simp [vStep, hc]
  | cancel => simp [vStep, hc]

theorem vRun_cancelled_silent (chain : ChainHeaderReader) (headers : List Header)
    (seals : List Bool) :
    ∀ (es : List VEvent) (s : VerifierState), s.cancelObserved = true →
      (vRun chain headers seals s es).2 = [] ∧
      (vRun chain headers seals s es).1.cancelObserved = true := by
  intro es
  induction es with
  | nil => intro s hc; exact ⟨rfl, hc⟩
  | cons e es ih =>
    intro s hc
    obtain ⟨ho, hc', _⟩ := vStep_cancelled chain headers seals s e hc
    obtain ⟨ho2, hc2⟩ := ih (vStep chain headers seals s e).1 hc'
    rw [vRun_cons]
    exact ⟨by rw [ho, ho2]; rfl, hc2⟩

theorem vRun_nodup (chain : ChainHeaderReader) (headers : List Header)
    (seals : List Bool) :
    ∀ (es : List VEvent) (s : VerifierState), s.running.Nodup →
      (vRun chain headers seals s es).1.running.Nodup := by
  intro es
  induction es with
  | nil => intro s hnd; exact hnd
  | cons e es ih =>
    intro s hnd
    rw [vRun_cons]
    refine ih _ ?_
    cases e with
    | schedule i =>
      by_cases hc : s.cancelObserved
      · simpa [vStep, hc] using hnd.erase i
      · by_cases hm : i ∈ s.running
        · simpa [vStep, hc, hm] using hnd.erase i
        · simpa [vStep, hc, hm] using hnd
    | deliver =>
      by_cases hc : s.cancelObserved
      · simpa [vStep, hc] using hnd
      · cases hf : s.buffered.find? (fun p => p.1 == s.sent) with
        | none => simpa [vStep, hc, hf] using hnd
        | some r => simpa [vStep, hc, hf] using hnd
    | cancel => simpa [vStep] using hnd

theorem vRun_drain (chain : ChainHeaderReader) (headers : List Header)
    (seals : List Bool) :
    ∀ (es : List VEvent) (s : VerifierState), s.cancelObserved = true →
      s.running.Nodup → (∀ i ∈ s.running, VEvent.schedule i ∈ es) →
      (vRun chain headers seals s es).1.running = [] := by
  intro es
  induction es with
  | nil =>
    intro s _ _ hsched
    exact List.eq_nil_iff_forall_not_mem.mpr
      (fun a ha => List.not_mem_nil _ (hsched a ha))
  | cons e es ih =>
    intro s hc hnd hsched
    rw [vRun_cons]
    cases e with
    | schedule j =>
      have hs1 : (vStep chain headers seals s (VEvent.schedule j)).1 =
          { s with running := s.running.erase j } := by simp [vStep, hc]
      rw [hs1]
      refine ih _ (by simpa using hc) (by simpa using hnd.erase j) ?_
      intro i hi
      simp only at hi
      have hij : i ≠ j := by
        intro he
        subst he
        exact hnd.not_mem_erase hi
      have hmem := hsched i (List.mem_of_mem_erase hi)
      rcases List.mem_cons.mp hmem with heq | htl
      · exact absurd (by injection heq) hij
      · exact htl
    | deliver =>
      have hs1 : (vStep chain headers seals s VEvent.deliver).1 = s := by
        simp [vStep, hc]
      rw [hs1]
      refine ih s hc hnd ?_
      intro i hi
      rcases List.mem_cons.mp (hsched i hi) with heq | htl
      · cases heq
      · exact htl
    | cancel =>
      have hs1 : (vStep chain headers seals s VEvent.cancel).1 =
          { s with cancelObserved := true } := by simp [vStep]
      rw [hs1]
      refine ih _ rfl (by simpa using hnd) ?_
      intro i hi
      simp only at hi
      rcases List.mem_cons.mp (hsched i hi) with heq | htl
      · cases heq
      · exact htl

theorem vRun_cancel_last (chain : ChainHeaderReader) (headers : List Header)
    (seals : List Bool) (es : List VEvent) (s : VerifierState) :
    (vRun chain headers seals s (es ++ [VEvent.cancel])).1.cancelObserved = true := by
  rw [vRun_append]
  simp [vRun, vStep]

/-! ## C3: after cancellation, no sends and no worker leak -/

/-- C3: once the send on the cancel-signal channel has been observed
(the `cancel` event), no further result is ever sent on the results
channel under any continuation schedule, and provided the scheduler
eventually schedules each still-running worker once, every worker task
terminates (the running set drains to empty) — regardless of how many
results were delivered before cancellation (the prefix `es1` is
arbitrary). -/
theorem verifyHeaders_cancel_quiesces (chain : ChainHeaderReader)
    (headers : List Header) (seals : List Bool) (n : Nat)
    (es1 es2 : List VEvent)
    (hsched : ∀ i ∈ (vRun chain headers seals (vInit n) (es1 ++ [VEvent.cancel])).1.running,
      VEvent.schedule i ∈ es2) :
    (vRun chain headers seals
      (vRun chain headers seals (vInit n) (es1 ++ [VEvent.cancel])).1 es2).2 = [] ∧
    (vRun chain headers seals
      (vRun chain headers seals (vInit n) (es1 ++ [VEvent.cancel])).1 es2).1.running = [] := by
  have hc := vRun_cancel_last chain headers seals es1 (vInit n)
  have hnd := vRun_nodup chain headers seals (es1 ++ [VEvent.cancel]) (vInit n)
    (by simpa [vInit] using List.nodup_range n)
  exact ⟨(vRun_cancelled_silent chain headers seals es2 _ hc).1,
    vRun_drain chain headers seals es2 _ hc hnd hsched⟩

/-- C3 witness: two workers; worker 0 completes and its result is
delivered, then cancellation is observed, then worker 1 is scheduled
and exits: nothing further is sent and no worker remains. -/
theorem verifyHeaders_cancel_quiesces_witness :
    (vRun cHeaderReader [cChild 101, cChild 102] [true, true]
      (vRun cHeaderReader [cChild 101, cChild 102] [true, true] (vInit 2)
        ([VEvent.schedule 0, VEvent.deliver] ++ [VEvent.cancel])).1
      [VEvent.schedule 1]).2 = [] ∧
    (vRun cHeaderReader [cChild 101, cChild 102] [true, true]
      (vRun cHeaderReader [cChild 101, cChild 102] [true, true] (vInit 2)
        ([VEvent.schedule 0, VEvent.deliver] ++ [VEvent.cancel])).1
      [VEvent.schedule 1]).1.running = [] :=
  verifyHeaders_cancel_quiesces cHeaderReader [cChild 101, cChild 102]
    [true, true] 2 [VEvent.schedule 0, VEvent.deliver] [VEvent.schedule 1]
    (by decide)

/-! ## C4: CalcDifficulty is pure and deterministic -/

/-- C4: `CalcDifficulty` is a pure, deterministic function of (config,
parent, timestamp): a call on one engine instance after any sequence
of internal engine-state transitions and a call on an independent
instance, over chain readers agreeing on the configuration, yield the
same integer result. -/
theorem calcDifficulty_pure (e1 e2 : EngineInstance) (evs : List EngineEvent)
    (c1 c2 : ChainHeaderReader) (hc : c1.config = c2.config)
    (t : Nat) (p : Header) :
    CalcDifficulty (evs.foldl engineStep e1) c1 t p = CalcDifficulty e2 c2 t p := by
  unfold CalcDifficulty
  rw [hc]

/-- C4 witness: two unrelated engine instances, one of which has gone
through background activity, over two nodes with the same
configuration but different local chains. -/
theorem calcDifficulty_pure_witness :
    CalcDifficulty ([EngineEvent.startSearch, EngineEvent.tuneThreads 4].foldl
        engineStep cEngine1) cHeaderReader 103 cGenesis =
      CalcDifficulty cEngine2 cHeaderReader2 103 cGenesis :=
  calcDifficulty_pure cEngine1 cEngine2 [EngineEvent.startSearch, EngineEvent.tuneThreads 4]
    cHeaderReader cHeaderReader2 rfl 103 cGenesis

/-! ## C5: Finalize and FinalizeAndAssemble share one semantic core -/

/-- C5: `FinalizeAndAssemble` performs exactly the same consensus-driven
state effects as `Finalize` — the resulting state, the appended
transaction sequence and the appended receipt sequence agree (and the
two fail identically) — differing only in output: `FinalizeAndAssemble`
additionally assembles the finished block from the header, the extended
transaction list and the uncles, while `Finalize` produces no block. -/
theorem finalize_finalizeAndAssemble_same_core (chain : ChainHeaderReader)
    (h : Header) (st : StateDB) (txs : List Tx) (uncles : List Header)
    (receipts : List Receipt) (systemTxs : List Tx) (usedGas : Nat) :
    Except.map (fun r => (r.2.2, r.1.txs, r.2.1))
        (FinalizeAndAssemble chain h st txs uncles receipts) =
      Except.map (fun r => (r.1, r.2.1, r.2.2.1))
        (Finalize chain h st txs uncles receipts systemTxs usedGas) ∧
    ∀ b rs st', FinalizeAndAssemble chain h st txs uncles receipts = .ok (b, rs, st') →
      b.header = h ∧ b.uncles = uncles := by
  constructor
  · by_cases hg : chain.config.systemTxGas ≤ h.gasLimit
    · have hg' : ¬ h.gasLimit < chain.config.systemTxGas := Nat.not_lt.mpr hg
      simp [Finalize, FinalizeAndAssemble, applyConsensusStateEffects, hg, hg',
        Except.map]
    · have hg' : h.gasLimit < chain.config.systemTxGas := Nat.lt_of_not_le hg
      simp [Finalize, FinalizeAndAssemble, applyConsensusStateEffects, hg, hg',
        Except.map]
  · intro b rs st' hok
    by_cases hg : chain.config.systemTxGas ≤ h.gasLimit
    · simp [FinalizeAndAssemble, hg] at hok
      obtain ⟨hb, -, -⟩ := hok
      subst hb
      exact ⟨rfl, rfl⟩
    · simp [FinalizeAndAssemble, hg] at hok

/-- C5 witness: finalizing an empty block over an empty state: the
projections agree and the assembled block carries the given header and
uncles. -/
theorem finalize_finalizeAndAssemble_same_core_witness :
    Except.map (fun r => (r.2.2, r.1.txs, r.2.1))
        (FinalizeAndAssemble cHeaderReader (cChild 103) ⟨[]⟩ [] [] []) =
      Except.map (fun r => (r.1, r.2.1, r.2.2.1))
        (Finalize cHeaderReader (cChild 103) ⟨[]⟩ [] [] [] [] 0) ∧
    (cAssembledBlock.header = cChild 103 ∧ cAssembledBlock.uncles = []) :=
  ⟨(finalize_finalizeAndAssemble_same_core cHeaderReader (cChild 103) ⟨[]⟩
      [] [] [] [] 0).1,
   (finalize_finalizeAndAssemble_same_core cHeaderReader (cChild 103) ⟨[]⟩
      [] [] [] [] 0).2 cAssembledBlock [cSysReceipt] cFinState rfl⟩

/-! ## C6: the SystemAddress sentinel -/

/-- C6 counterexample: the byte pattern of `SystemAddress` is not
"all-`f` with one zero byte" — no byte of
`0xffffFFFfFFffffffffffffffFfFFFfffFFFfFFfE` is zero (the final byte is
`0xfe`). -/
theorem systemAddress_no_zero_byte : ¬ allFWithOneZeroByte SystemAddress := by
  decide

/-- C6 amended: `SystemAddress` is the fixed constant sentinel whose
byte pattern is all-`f` with one zero **bit**: nineteen `0xff` bytes
followed by `0xfe`, so exactly one of its 160 bits is zero. -/
theorem systemAddress_pattern :
    SystemAddress = List.replicate 19 0xff ++ [0xfe] ∧
    (SystemAddress.map zeroBitsInByte).sum = 1 := by
  decide

/-! ## C7: Prepare is idempotent and reads no transaction content -/

/-- C7: calling `Prepare` again on the header produced by a first
`Prepare` call, over the same parent state, reproduces that header
unchanged; and `Prepare` receives no transaction content — over two
chain readers that agree on all header access (differing arbitrarily
in block-body access), it produces the same result. -/
theorem prepare_idempotent (chain : ChainHeaderReader) (h h' : Header)
    (hp : Prepare chain h = .ok h') :
    Prepare chain h' = .ok h' ∧
    ∀ (c1 c2 : ChainReader), c1.toChainHeaderReader = c2.toChainHeaderReader →
      Prepare c1.toChainHeaderReader h = Prepare c2.toChainHeaderReader h := by
  constructor
  · unfold Prepare at hp ⊢
    cases hg : chain.getHeader h.parentHash (h.number - 1) with
    | none => rw [hg] at hp; cases hp
    | some parent =>
      rw [hg] at hp
      injection hp with hp'
      subst hp'
      rw [hg]
  · intro c1 c2 hc
    rw [hc]

/-- C7 witness: preparing an uninitialized header over the concrete
chain and re-preparing its output. -/
theorem prepare_idempotent_witness :
    Prepare cHeaderReader cPrep1 = .ok cPrep1 ∧
    ∀ (c1 c2 : ChainReader), c1.toChainHeaderReader = c2.toChainHeaderReader →
      Prepare c1.toChainHeaderReader cPrep0 = Prepare c2.toChainHeaderReader cPrep0 :=
  prepare_idempotent cHeaderReader cPrep0 cPrep1 rfl

/-! ## C8: SealHash is determined exactly by the pre-seal fields -/

theorem intCode_inj {a b : Int} (h : intCode a = intCode b) : a = b := by
  cases a <;> cases b <;> simp [intCode] at h ⊢ <;> omega

theorem encodeList_inj : ∀ {l1 l2 : List Nat}, encodeList l1 = encodeList l2 → l1 = l2 := by
  intro l1
  induction l1 with
  | nil =>
    intro l2 h
    cases l2 with
    | nil => rfl
    | cons b t => exact absurd h.symm (Nat.succ_ne_zero _)
  | cons a t ih =>
    intro l2 h
    cases l2 with
    | nil => exact absurd h (Nat.succ_ne_zero _)
    | cons b t2 =>
      have h' : Nat.pair a (encodeList t) = Nat.pair b (encodeList t2) :=
        Nat.add_right_cancel h
      obtain ⟨ha, ht⟩ := Nat.pair_eq_pair.mp h'
      rw [ha, ih ht]

/-- C8: `SealHash` is a deterministic function of exactly the pre-seal
fields: two headers have the same seal hash precisely when their
pre-seal fields agree — so re-hashing an unmodified header yields the
same value, modifying any pre-seal field changes the hash, and
modifying only the seal/signature field leaves the hash unchanged. -/
theorem sealHash_determined_by_preseal (h1 h2 : Header) :
    (SealHash h1 = SealHash h2 ↔ preSealFields h1 = preSealFields h2) ∧
    ∀ sd, SealHash { h1 with sealData := sd } = SealHash h1 := by
  refine ⟨⟨?_, ?_⟩, fun _ => rfl⟩
  · intro he
    unfold SealHash hashFields at he
    obtain ⟨e1, he⟩ := Nat.pair_eq_pair.mp he
    obtain ⟨e2, he⟩ := Nat.pair_eq_pair.mp he
    obtain ⟨e3, he⟩ := Nat.pair_eq_pair.mp he
    obtain ⟨e4, he⟩ := Nat.pair_eq_pair.mp he
    obtain ⟨e5, he⟩ := Nat.pair_eq_pair.mp he
    obtain ⟨e6, e7⟩ := Nat.pair_eq_pair.mp he
    unfold preSealFields at e1 e2 e3 e4 e5 e6 e7 ⊢
    rw [Prod.ext_iff]
    refine ⟨e1, ?_⟩
    rw [Prod.ext_iff]
    refine ⟨e2, ?_⟩
    rw [Prod.ext_iff]
    refine ⟨e3, ?_⟩
    rw [Prod.ext_iff]
    refine ⟨intCode_inj e4, ?_⟩
    rw [Prod.ext_iff]
    refine ⟨encodeList_inj e5, ?_⟩
    rw [Prod.ext_iff]
    exact ⟨e6, encodeList_inj e7⟩
  · intro he
    unfold SealHash
    rw [he]

/-! ## C9: Seal errors are synchronous precondition failures only -/

/-- C9: `Seal` returns a synchronous error exactly when the
authorization precondition is violated; for every background-search
outcome after `Seal` has returned, a mid-search failure is never
propagated as an error — it surfaces only as the absence of a result
on the results channel. -/
theorem seal_error_only_precondition (authorized : Bool) (b : Block)
    (o : SearchOutcome) :
    ((∃ e, Seal authorized b o = .error e) ↔ authorized = false) ∧
    Seal true b .failed = .ok none := by
  refine ⟨⟨?_, ?_⟩, rfl⟩
  · rintro ⟨e, he⟩
    cases authorized with
    | true => simp [Seal] at he
    | false => rfl
  · intro ha
    subst ha
    exact ⟨.unauthorized, rfl⟩

/-! ## C10: header-phase operations have no block-body capability -/

/-- C10: every header-phase operation of any engine receives only the
`ChainHeaderReader` capability, which exposes no block-body access, so
over two full chain readers that agree on header access but differ
arbitrarily in `getBlock`, all header-phase results coincide — their
results cannot depend on the contents of stored block bodies.  (In the
embedded interface, only `verifyUncles`, `delay` and the PoSA checks
`enoughDistance` and `allowLightProcess` take the full `ChainReader`;
`author` and `sealHash` take no chain capability at all.) -/
theorem headerPhase_ops_body_blind (e : Engine) (c1 c2 : ChainReader)
    (hc : c1.toChainHeaderReader = c2.toChainHeaderReader) :
    (∀ h s, e.verifyHeader c1.toChainHeaderReader h s =
      e.verifyHeader c2.toChainHeaderReader h s) ∧
    (∀ hs ss ord, e.verifyHeaders c1.toChainHeaderReader hs ss ord =
      e.verifyHeaders c2.toChainHeaderReader hs ss ord) ∧
    (∀ h, e.prepare c1.toChainHeaderReader h = e.prepare c2.toChainHeaderReader h) ∧
    (∀ h st txs us rs stx g,
      e.finalize c1.toChainHeaderReader h st txs us rs stx g =
        e.finalize c2.toChainHeaderReader h st txs us rs stx g) ∧
    (∀ h st txs us rs,
      e.finalizeAndAssemble c1.toChainHeaderReader h st txs us rs =
        e.finalizeAndAssemble c2.toChainHeaderReader h st txs us rs) ∧
    (∀ b o, e.sealOp c1.toChainHeaderReader b o =
      e.sealOp c2.toChainHeaderReader b o) ∧
    (∀ t p, e.calcDifficulty c1.toChainHeaderReader t p =
      e.calcDifficulty c2.toChainHeaderReader t p) ∧
    e.apis c1.toChainHeaderReader = e.apis c2.toChainHeaderReader := by
  rw [hc]
  exact ⟨fun _ _ => rfl, fun _ _ _ => rfl, fun _ => rfl,
    fun _ _ _ _ _ _ _ => rfl, fun _ _ _ _ _ => rfl, fun _ _ => rfl,
    fun _ _ => rfl, rfl⟩

/-- C10 witness: the reference engine over two chain readers that
agree on headers but disagree on every block body. -/
theorem headerPhase_ops_body_blind_witness :
    refEngine.verifyHeader cReader1.toChainHeaderReader (cChild 101) true =
      refEngine.verifyHeader cReader2.toChainHeaderReader (cChild 101) true :=
  (headerPhase_ops_body_blind refEngine cReader1 cReader2 rfl).1 (cChild 101) true

end Consensus
